import Mathlib

/-!
Verification of the Equilibrium quantitative engine.

The definitions below are a shallow embedding, over the real numbers, of the
math engine in `src/app/page.tsx`: the polynomial normal-CDF approximation,
the normal PDF, the Black-Scholes pricer, the GBM path simulator, the
Monte Carlo option engine and the portfolio rebalancing calculations.
Randomness (the Box-Muller Gaussian sampler) is modelled by passing the
Gaussian draws as an explicit function argument.  JavaScript out-of-bounds
array indexing (which yields `undefined` and then NaN) is modelled with
`Option`: `none` stands for the NaN outcome.
-/

noncomputable section

namespace Equilibrium

/-- The polynomial part of `normalCDF` in `src/app/page.tsx` (the local
`prob` value computed from `t` and `d`). -/
def cdfProb (x : ℝ) : ℝ :=
  let t := 1 / (1 + 0.2316419 * |x|)
  let d := 0.3989423 * Real.exp (-x * x / 2)
  d * t * (0.3193815 + t * (-0.3565638 + t * (1.781478 + t * (-1.821256 + t * 1.330274))))

/-- `normalCDF` from `src/app/page.tsx`. -/
def normalCDF (x : ℝ) : ℝ :=
  if x > 0 then 1 - cdfProb x else cdfProb x

/-- `normalPDF` from `src/app/page.tsx`. -/
def normalPDF (x : ℝ) : ℝ :=
  Real.exp (-0.5 * x * x) / Real.sqrt (2 * Real.pi)

lemma cdfProb_neg (x : ℝ) : cdfProb (-x) = cdfProb x := by
  simp only [cdfProb, abs_neg, neg_neg, mul_neg, neg_mul]

lemma normalCDF_of_nonpos {x : ℝ} (hx : x ≤ 0) : normalCDF x = cdfProb x :=
  if_neg (not_lt.mpr hx)

lemma normalCDF_of_pos {x : ℝ} (hx : 0 < x) : normalCDF x = 1 - cdfProb x :=
  if_pos hx

lemma normalCDF_add_neg {x : ℝ} (hx : x ≠ 0) : normalCDF x + normalCDF (-x) = 1 := by
  rcases lt_or_gt_of_ne hx with h | h
  · rw [normalCDF_of_nonpos h.le, normalCDF_of_pos (neg_pos.mpr h), ← cdfProb_neg x]
    ring
  · rw [normalCDF_of_pos h, normalCDF_of_nonpos (neg_nonpos.mpr h.le), cdfProb_neg]
    ring

lemma cdfProb_zero : cdfProb 0 = 0.49999985009951 := by
  simp only [cdfProb, abs_zero, mul_zero, add_zero, neg_zero, zero_mul, zero_div,
    Real.exp_zero]
  norm_num

/-- Refinement target for the spec's description of the CDF approximation
(section 4.1): the fixed polynomial with coefficients 0.3193815, -0.3565638,
1.781478, -1.821256, 1.330274, scale 0.3989423 and rate constant 0.2316419,
evaluated at the absolute value of the argument, returning the complement
exactly when the argument is positive. -/
def normalCDFSpec (x : ℝ) : ℝ :=
  let t := 1 / (1 + 0.2316419 * |x|)
  let prob := 0.3989423 * Real.exp (-(|x| * |x|) / 2) * t *
    (0.3193815 + t * (-0.3565638 + t * (1.781478 + t * (-1.821256 + t * 1.330274))))
  if x > 0 then 1 - prob else prob

/-- C7: for every real x, `normalCDF` computes exactly the spec's fixed
polynomial approximation (coefficients 0.3193815, -0.3565638, 1.781478,
-1.821256, 1.330274, scale 0.3989423, rate constant 0.2316419) evaluated at
the absolute value of x, returning the complement when x > 0 and the
uncomplemented value otherwise. -/
theorem normalCDF_matches_spec (x : ℝ) : normalCDF x = normalCDFSpec x := by
  have habs : -(|x| * |x|) / 2 = -x * x / 2 := by
    rw [abs_mul_abs_self]
    ring
  simp only [normalCDF, normalCDFSpec, cdfProb, habs]

/-- C10: for every real x different from 0 the reflection identity
`normalCDF x + normalCDF (-x) = 1` holds exactly (both calls evaluate the
same polynomial at the absolute value and the positive branch returns the
complement), and at x = 0 the identity actually fails, because both calls
take the non-complemented branch. -/
theorem normalCDF_reflection_identity :
    (∀ x : ℝ, x ≠ 0 → normalCDF x + normalCDF (-x) = 1) ∧
    normalCDF 0 + normalCDF (-0) ≠ 1 := by
  constructor
  · intro x hx
    exact normalCDF_add_neg hx
  · rw [neg_zero, normalCDF_of_nonpos le_rfl, cdfProb_zero]
    norm_num

/-- Witness for C10 at x = 1. -/
theorem normalCDF_reflection_identity_witness :
    (1 : ℝ) ≠ 0 ∧ normalCDF 1 + normalCDF (-1) = 1 :=
  ⟨one_ne_zero, normalCDF_reflection_identity.1 1 one_ne_zero⟩

/-- `BlackScholesResult` from `src/app/page.tsx`. -/
structure BlackScholesResult where
  callPrice : ℝ
  putPrice : ℝ
  delta : ℝ
  gamma : ℝ
  theta : ℝ
  vega : ℝ
  rho : ℝ

/-- The local `d1` of `calculateBlackScholes` in `src/app/page.tsx`. -/
def bsD1 (S K T r sigma : ℝ) : ℝ :=
  (Real.log (S / K) + (r + 0.5 * sigma * sigma) * T) / (sigma * Real.sqrt T)

/-- The local `d2` of `calculateBlackScholes` in `src/app/page.tsx`. -/
def bsD2 (S K T r sigma : ℝ) : ℝ :=
  bsD1 S K T r sigma - sigma * Real.sqrt T

/-- `calculateBlackScholes` from `src/app/page.tsx`. -/
def calculateBlackScholes (S K T r sigma : ℝ) : BlackScholesResult :=
  let d1 := bsD1 S K T r sigma
  let d2 := bsD2 S K T r sigma
  let Nd1 := normalCDF d1
  let Nd2 := normalCDF d2
  let Nmd1 := normalCDF (-d1)
  let Nmd2 := normalCDF (-d2)
  let nd1 := normalPDF d1
  let callPrice := S * Nd1 - K * Real.exp (-r * T) * Nd2
  let putPrice := K * Real.exp (-r * T) * Nmd2 - S * Nmd1
  let delta := Nd1
  let gamma := nd1 / (S * sigma * Real.sqrt T)
  let theta := -(S * nd1 * sigma) / (2 * Real.sqrt T) - r * K * Real.exp (-r * T) * Nd2
  let vega := S * nd1 * Real.sqrt T
  let rho := K * T * Real.exp (-r * T) * Nd2
  { callPrice := callPrice, putPrice := putPrice, delta := delta, gamma := gamma,
    theta := theta / 365, vega := vega / 100, rho := rho / 100 }

lemma callPrice_eq (S K T r sigma : ℝ) :
    (calculateBlackScholes S K T r sigma).callPrice =
      S * normalCDF (bsD1 S K T r sigma) -
        K * Real.exp (-r * T) * normalCDF (bsD2 S K T r sigma) := rfl

lemma putPrice_eq (S K T r sigma : ℝ) :
    (calculateBlackScholes S K T r sigma).putPrice =
      K * Real.exp (-r * T) * normalCDF (-bsD2 S K T r sigma) -
        S * normalCDF (-bsD1 S K T r sigma) := rfl

lemma parity_exact (S K T r sigma : ℝ)
    (hd1 : bsD1 S K T r sigma ≠ 0) (hd2 : bsD2 S K T r sigma ≠ 0) :
    (calculateBlackScholes S K T r sigma).callPrice -
        (calculateBlackScholes S K T r sigma).putPrice =
      S - K * Real.exp (-r * T) := by
  have h1 := normalCDF_add_neg hd1
  have h2 := normalCDF_add_neg hd2
  rw [callPrice_eq, putPrice_eq]
  linear_combination S * h1 - K * Real.exp (-r * T) * h2

/-- C1 (amended): for every valid MarketParameters input whose d1 and d2 are
nonzero, put-call parity `callPrice - putPrice = S - K * exp (-r * T)` holds
exactly, and in particular within the 1e-6 tolerance.  (When d1 = 0 or
d2 = 0 both CDF calls take the non-complemented branch and parity picks up
an error of about 3e-7 times S or K.) -/
theorem put_call_parity (S K T r sigma : ℝ)
    (hS : 0 < S) (hK : 0 < K) (hT : 0 < T) (hsigma : 0 < sigma)
    (hd1 : bsD1 S K T r sigma ≠ 0) (hd2 : bsD2 S K T r sigma ≠ 0) :
    |(calculateBlackScholes S K T r sigma).callPrice -
        (calculateBlackScholes S K T r sigma).putPrice -
        (S - K * Real.exp (-r * T))| ≤ 1e-6 := by
  rw [parity_exact S K T r sigma hd1 hd2]
  simp only [sub_self, abs_zero]
  norm_num

lemma bsD1_witness_eval : bsD1 100 100 1 0 0.25 = 0.125 := by
  rw [bsD1, show ((100 : ℝ) / 100) = 1 by norm_num, Real.log_one, Real.sqrt_one]
  norm_num

lemma bsD2_witness_eval : bsD2 100 100 1 0 0.25 = -0.125 := by
  rw [bsD2, bsD1_witness_eval, Real.sqrt_one]
  norm_num

/-- Witness for the amended C1 at S = 100, K = 100, T = 1, r = 0,
sigma = 0.25 (there d1 = 0.125 and d2 = -0.125). -/
theorem put_call_parity_witness :
    bsD1 100 100 1 0 0.25 ≠ 0 ∧ bsD2 100 100 1 0 0.25 ≠ 0 ∧
    |(calculateBlackScholes 100 100 1 0 0.25).callPrice -
        (calculateBlackScholes 100 100 1 0 0.25).putPrice -
        (100 - 100 * Real.exp (-0 * 1))| ≤ 1e-6 := by
  have h1 : bsD1 100 100 1 0 0.25 ≠ 0 := by rw [bsD1_witness_eval]; norm_num
  have h2 : bsD2 100 100 1 0 0.25 ≠ 0 := by rw [bsD2_witness_eval]; norm_num
  exact ⟨h1, h2, put_call_parity 100 100 1 0 0.25 (by norm_num) (by norm_num)
    (by norm_num) (by norm_num) h1 h2⟩

/-- Counterexample to C1 as stated: at the valid input S = 100, K = 100,
T = 1, r = -0.03125, sigma = 0.25 we get d1 = 0 exactly, both CDF calls at
d1 take the non-complemented branch, and the parity defect equals
200 * cdfProb 0 - 100 = -2.9980098e-5, which exceeds the 1e-6 tolerance. -/
theorem put_call_parity_cex :
    ¬ |(calculateBlackScholes 100 100 1 (-0.03125) 0.25).callPrice -
        (calculateBlackScholes 100 100 1 (-0.03125) 0.25).putPrice -
        (100 - 100 * Real.exp (-(-0.03125) * 1))| ≤ 1e-6 := by
  have hd1 : bsD1 100 100 1 (-0.03125) 0.25 = 0 := by
    rw [bsD1, show ((100 : ℝ) / 100) = 1 by norm_num, Real.log_one, Real.sqrt_one]
    norm_num
  have hd2 : bsD2 100 100 1 (-0.03125) 0.25 = -0.25 := by
    rw [bsD2, hd1, Real.sqrt_one]
    norm_num
  rw [callPrice_eq, putPrice_eq, hd1, hd2]
  simp only [neg_zero, neg_neg]
  rw [normalCDF_of_nonpos (le_refl (0 : ℝ)),
    normalCDF_of_nonpos (by norm_num : (-0.25 : ℝ) ≤ 0),
    normalCDF_of_pos (by norm_num : (0 : ℝ) < 0.25),
    cdfProb_neg, cdfProb_zero]
  have hsimp :
      (100 : ℝ) * 0.49999985009951 -
          100 * Real.exp (0.03125 * 1) * cdfProb 0.25 -
          (100 * Real.exp (0.03125 * 1) * (1 - cdfProb 0.25) -
            100 * 0.49999985009951) -
          (100 - 100 * Real.exp (0.03125 * 1)) = -0.000029980098 := by
    ring
  rw [hsimp, abs_of_neg (by norm_num)]
  norm_num

/-- Refinement target for the spec's Black-Scholes algorithm (section 4.2):
the displayed closed-form values with theta scaled per calendar day
(divided by 365) and vega and rho scaled per percentage point
(divided by 100), with N the CDF and phi the PDF of section 4.1. -/
def blackScholesSpec (S K T r sigma : ℝ) : BlackScholesResult :=
  let d1 := (Real.log (S / K) + (r + 0.5 * sigma ^ 2) * T) / (sigma * Real.sqrt T)
  let d2 := d1 - sigma * Real.sqrt T
  { callPrice := S * normalCDF d1 - K * Real.exp (-r * T) * normalCDF d2
    putPrice := K * Real.exp (-r * T) * normalCDF (-d2) - S * normalCDF (-d1)
    delta := normalCDF d1
    gamma := normalPDF d1 / (S * sigma * Real.sqrt T)
    theta := (-(S * normalPDF d1 * sigma) / (2 * Real.sqrt T) -
      r * K * Real.exp (-r * T) * normalCDF d2) / 365
    vega := S * normalPDF d1 * Real.sqrt T / 100
    rho := K * T * Real.exp (-r * T) * normalCDF d2 / 100 }

/-- C5: for every valid MarketParameters input the pricer returns exactly
the spec's closed-form d1, d2, call and put prices and Greeks, with theta
divided by 365 and vega and rho divided by 100, using the component-4.1
CDF and PDF. -/
theorem blackScholes_matches_spec (S K T r sigma : ℝ)
    (hS : 0 < S) (hK : 0 < K) (hT : 0 < T) (hsigma : 0 < sigma) :
    calculateBlackScholes S K T r sigma = blackScholesSpec S K T r sigma := by
  have hd1 : bsD1 S K T r sigma =
      (Real.log (S / K) + (r + 0.5 * sigma ^ 2) * T) / (sigma * Real.sqrt T) := by
    rw [bsD1]
    ring_nf
  simp only [calculateBlackScholes, blackScholesSpec, bsD2, hd1]

/-- Witness for C5 at S = 1, K = 1, T = 1, r = 0, sigma = 1. -/
theorem blackScholes_matches_spec_witness :
    (0 : ℝ) < 1 ∧ calculateBlackScholes 1 1 1 0 1 = blackScholesSpec 1 1 1 0 1 :=
  ⟨by norm_num,
    blackScholes_matches_spec 1 1 1 0 1 (by norm_num) (by norm_num) (by norm_num)
      (by norm_num)⟩

/-- The value of the GBM recurrence of `simulateGBMPath` in
`src/app/page.tsx` after i steps: `path[0] = S0` and
`path[i] = path[i-1] * exp ((r - 0.5 sigma^2) dt + sigma sqrt dt * Z i)`
with `dt = T / steps`.  The Gaussian draw of iteration i is `Z i`. -/
def gbmAt (S0 r sigma T : ℝ) (steps : ℕ) (Z : ℕ → ℝ) : ℕ → ℝ
  | 0 => S0
  | i + 1 =>
      gbmAt S0 r sigma T steps Z i *
        Real.exp ((r - 0.5 * sigma * sigma) * (T / steps) +
          sigma * Real.sqrt (T / steps) * Z (i + 1))

/-- `simulateGBMPath` from `src/app/page.tsx`: the array of the steps+1
recurrence values. -/
def simulateGBMPath (S0 r sigma T : ℝ) (steps : ℕ) (Z : ℕ → ℝ) : List ℝ :=
  (List.range (steps + 1)).map (gbmAt S0 r sigma T steps Z)

lemma gbmAt_pos (S0 r sigma T : ℝ) (steps : ℕ) (Z : ℕ → ℝ) (hS0 : 0 < S0) :
    ∀ i, 0 < gbmAt S0 r sigma T steps Z i
  | 0 => hS0
  | i + 1 => mul_pos (gbmAt_pos S0 r sigma T steps Z hS0 i) (Real.exp_pos _)

lemma simulateGBMPath_length (S0 r sigma T : ℝ) (steps : ℕ) (Z : ℕ → ℝ) :
    (simulateGBMPath S0 r sigma T steps Z).length = steps + 1 := by
  simp [simulateGBMPath]

/-- C3: for every call of the path simulator with S0 > 0, sigma >= 0,
T > 0, steps >= 1, and any Gaussian draws, the produced path has exactly
steps+1 values, its first value is S0, and every value is strictly
positive. -/
theorem gbm_path_invariant (S0 r sigma T : ℝ) (steps : ℕ) (Z : ℕ → ℝ)
    (hS0 : 0 < S0) (hsigma : 0 ≤ sigma) (hT : 0 < T) (hsteps : 1 ≤ steps) :
    (simulateGBMPath S0 r sigma T steps Z).length = steps + 1 ∧
    (simulateGBMPath S0 r sigma T steps Z).head? = some S0 ∧
    ∀ x ∈ simulateGBMPath S0 r sigma T steps Z, 0 < x := by
  refine ⟨simulateGBMPath_length S0 r sigma T steps Z, ?_, ?_⟩
  · rw [simulateGBMPath, List.range_succ_eq_map, List.map_cons, List.head?_cons,
      gbmAt]
  · intro x hx
    rw [simulateGBMPath, List.mem_map] at hx
    obtain ⟨i, _, rfl⟩ := hx
    exact gbmAt_pos S0 r sigma T steps Z hS0 i

/-- Witness for C3 at S0 = 1, r = 0, sigma = 0, T = 1, steps = 1 and all
draws equal to 0. -/
theorem gbm_path_invariant_witness :
    (0 : ℝ) < 1 ∧ (0 : ℝ) ≤ 0 ∧ 1 ≤ 1 ∧
    ((simulateGBMPath 1 0 0 1 1 (fun _ => 0)).length = 1 + 1 ∧
      (simulateGBMPath 1 0 0 1 1 (fun _ => 0)).head? = some 1 ∧
      ∀ x ∈ simulateGBMPath 1 0 0 1 1 (fun _ => 0), 0 < x) :=
  ⟨by norm_num, le_refl 0, le_refl 1,
    gbm_path_invariant 1 0 0 1 1 (fun _ => 0) (by norm_num) (le_refl 0)
      (by norm_num) (le_refl 1)⟩

/-- The `optionType` field of the Monte Carlo configuration in
`src/app/page.tsx`. -/
inductive OptionKind
  | call
  | put

/-- The Monte Carlo parameters `mcParams` of `src/app/page.tsx`
(`S0, K, T, r, sigma, iterations, steps, optionType`). -/
structure MCConfig where
  S0 : ℝ
  K : ℝ
  T : ℝ
  r : ℝ
  sigma : ℝ
  iterations : ℕ
  steps : ℕ
  optionType : OptionKind

/-- The terminal value `ST = path[path.length - 1]` of one simulated path
in `runMonteCarloSimulation` of `src/app/page.tsx`.  `Zi` holds the
Gaussian draws of this path. -/
def mcTerminal (cfg : MCConfig) (Zi : ℕ → ℝ) : ℝ :=
  let path := simulateGBMPath cfg.S0 cfg.r cfg.sigma cfg.T cfg.steps Zi
  path.getD (path.length - 1) 0

/-- The undiscounted payoff of one path in `runMonteCarloSimulation`:
`max (ST - K) 0` for a call and `max (K - ST) 0` for a put. -/
def mcPayoff (cfg : MCConfig) (Zi : ℕ → ℝ) : ℝ :=
  match cfg.optionType with
  | OptionKind.call => max (mcTerminal cfg Zi - cfg.K) 0
  | OptionKind.put => max (cfg.K - mcTerminal cfg Zi) 0

/-- The list of undiscounted payoffs over the `iterations` paths.  The
draws of path i are `Z i`. -/
def undiscountedPayoffs (cfg : MCConfig) (Z : ℕ → ℕ → ℝ) : List ℝ :=
  (List.range cfg.iterations).map (fun i => mcPayoff cfg (Z i))

/-- The `payoffs` array of `runMonteCarloSimulation`: each payoff
discounted by `exp (-r * T)`. -/
def discountedPayoffs (cfg : MCConfig) (Z : ℕ → ℕ → ℝ) : List ℝ :=
  (undiscountedPayoffs cfg Z).map (fun p => p * Real.exp (-cfg.r * cfg.T))

/-- The `inTheMoneyCount` counter of `runMonteCarloSimulation`: the number
of paths whose (undiscounted) payoff is strictly positive. -/
def inTheMoneyCount (cfg : MCConfig) (Z : ℕ → ℕ → ℝ) : ℕ :=
  (undiscountedPayoffs cfg Z).countP (fun p => decide (0 < p))

/-- The `payoffs` array after `payoffs.sort((a, b) => a - b)`: the
discounted payoffs sorted ascending. -/
def sortedPayoffs (cfg : MCConfig) (Z : ℕ → ℕ → ℝ) : List ℝ :=
  (discountedPayoffs cfg Z).mergeSort (fun a b => decide (a ≤ b))

/-- The `index5th` of `runMonteCarloSimulation`:
`Math.floor(iterations * 0.05)`. -/
def index5th (cfg : MCConfig) : ℕ :=
  Nat.floor ((cfg.iterations : ℝ) * 0.05)

/-- The numeric fields of the `mcResults` object of
`runMonteCarloSimulation` in `src/app/page.tsx`.  `valueAtRisk` is an
`Option`: `none` models the NaN produced by the JavaScript out-of-bounds
read `payoffs[index5th]` when the sorted array is too short. -/
structure MCResult where
  optionPrice : ℝ
  inTheMoneyProbability : ℝ
  valueAtRisk : Option ℝ

/-- `runMonteCarloSimulation` from `src/app/page.tsx` (its numeric core:
the loop accumulating `sumPayoff` and `inTheMoneyCount`, then
`optionPrice = sumPayoff / iterations`,
`inTheMoneyProbability = (inTheMoneyCount / iterations) * 100` and
`valueAtRisk = optionPrice - payoffs[index5th]`). -/
def runMonteCarloSimulation (cfg : MCConfig) (Z : ℕ → ℕ → ℝ) : MCResult :=
  let optionPrice := (discountedPayoffs cfg Z).sum / (cfg.iterations : ℝ)
  { optionPrice := optionPrice
    inTheMoneyProbability := ((inTheMoneyCount cfg Z : ℝ) / (cfg.iterations : ℝ)) * 100
    valueAtRisk := ((sortedPayoffs cfg Z)[index5th cfg]?).map (fun p => optionPrice - p) }

lemma mcTerminal_eq_gbmAt (cfg : MCConfig) (Zi : ℕ → ℝ) :
    mcTerminal cfg Zi = gbmAt cfg.S0 cfg.r cfg.sigma cfg.T cfg.steps Zi cfg.steps := by
  rw [mcTerminal, simulateGBMPath]
  have hlen : ((List.range (cfg.steps + 1)).map
      (gbmAt cfg.S0 cfg.r cfg.sigma cfg.T cfg.steps Zi)).length = cfg.steps + 1 := by
    simp
  have hlt : cfg.steps < ((List.range (cfg.steps + 1)).map
      (gbmAt cfg.S0 cfg.r cfg.sigma cfg.T cfg.steps Zi)).length := by
    rw [hlen]
    exact Nat.lt_succ_self _
  rw [hlen]
  simp only [Nat.add_sub_cancel]
  rw [List.getD_eq_getElem _ _ hlt]
  simp

lemma mc_optionPrice_eq (cfg : MCConfig) (Z : ℕ → ℕ → ℝ) :
    (runMonteCarloSimulation cfg Z).optionPrice =
      (discountedPayoffs cfg Z).sum / (cfg.iterations : ℝ) := rfl

lemma mc_itm_eq (cfg : MCConfig) (Z : ℕ → ℕ → ℝ) :
    (runMonteCarloSimulation cfg Z).inTheMoneyProbability =
      ((inTheMoneyCount cfg Z : ℝ) / (cfg.iterations : ℝ)) * 100 := rfl

lemma mc_var_eq (cfg : MCConfig) (Z : ℕ → ℕ → ℝ) :
    (runMonteCarloSimulation cfg Z).valueAtRisk =
      ((sortedPayoffs cfg Z)[index5th cfg]?).map
        (fun p => (runMonteCarloSimulation cfg Z).optionPrice - p) := rfl

lemma discountedPayoffs_length (cfg : MCConfig) (Z : ℕ → ℕ → ℝ) :
    (discountedPayoffs cfg Z).length = cfg.iterations := by
  simp [discountedPayoffs, undiscountedPayoffs]

lemma sortedPayoffs_length (cfg : MCConfig) (Z : ℕ → ℕ → ℝ) :
    (sortedPayoffs cfg Z).length = cfg.iterations := by
  rw [sortedPayoffs, List.length_mergeSort, discountedPayoffs_length]

lemma decide_le_trans (a b c : ℝ) (hab : decide (a ≤ b) = true)
    (hbc : decide (b ≤ c) = true) : decide (a ≤ c) = true := by
  simp only [decide_eq_true_eq] at *
  exact le_trans hab hbc

lemma decide_le_total (a b : ℝ) : (decide (a ≤ b) || decide (b ≤ a)) = true := by
  simpa using le_total a b

/-- C2: for every run of the engine with at least one path, the sorted
payoff array is an ascending-sorted permutation of the discounted payoffs
and `valueAtRisk` equals exactly `optionPrice` minus the element at index
`floor (0.05 * pathCount)` of that sorted array. -/
theorem valueAtRisk_formula (cfg : MCConfig) (Z : ℕ → ℕ → ℝ)
    (h : 1 ≤ cfg.iterations) :
    List.Pairwise (fun a b : ℝ => a ≤ b) (sortedPayoffs cfg Z) ∧
    (sortedPayoffs cfg Z).Perm (discountedPayoffs cfg Z) ∧
    (runMonteCarloSimulation cfg Z).valueAtRisk =
      some ((runMonteCarloSimulation cfg Z).optionPrice -
        (sortedPayoffs cfg Z).getD (Nat.floor (0.05 * (cfg.iterations : ℝ))) 0) := by
  have hnpos : (0 : ℝ) < (cfg.iterations : ℝ) := by
    exact_mod_cast Nat.lt_of_lt_of_le Nat.zero_lt_one h
  have hidx : Nat.floor (0.05 * (cfg.iterations : ℝ)) = index5th cfg := by
    rw [index5th, mul_comm]
  have hlt : index5th cfg < (sortedPayoffs cfg Z).length := by
    rw [sortedPayoffs_length, index5th, Nat.floor_lt (by positivity)]
    nlinarith
  refine ⟨?_, ?_, ?_⟩
  · have hs := @List.sorted_mergeSort ℝ (fun a b : ℝ => decide (a ≤ b))
      decide_le_trans decide_le_total (discountedPayoffs cfg Z)
    exact hs.imp (fun hab => of_decide_eq_true hab)
  · exact List.mergeSort_perm (discountedPayoffs cfg Z) _
  · rw [mc_var_eq, hidx, List.getElem?_eq_getElem hlt, List.getD_eq_getElem _ _ hlt]
    rfl

/-- Shared concrete configuration for the Monte Carlo witnesses: one path
of one step, S0 = K = 1, r = 0, sigma = 0, call. -/
def mcWitnessConfig : MCConfig :=
  { S0 := 1, K := 1, T := 1, r := 0, sigma := 0, iterations := 1, steps := 1,
    optionType := OptionKind.call }

/-- All-zero Gaussian draws for the witnesses. -/
def zeroDraws : ℕ → ℕ → ℝ := fun _ _ => 0

/-- Witness for C2 at the one-path configuration. -/
theorem valueAtRisk_formula_witness :
    1 ≤ mcWitnessConfig.iterations ∧
    (runMonteCarloSimulation mcWitnessConfig zeroDraws).valueAtRisk =
      some ((runMonteCarloSimulation mcWitnessConfig zeroDraws).optionPrice -
        (sortedPayoffs mcWitnessConfig zeroDraws).getD
          (Nat.floor (0.05 * (mcWitnessConfig.iterations : ℝ))) 0) :=
  ⟨le_refl 1, (valueAtRisk_formula mcWitnessConfig zeroDraws (le_refl 1)).2.2⟩

lemma mcPayoff_eq_spec (cfg : MCConfig) (Zi : ℕ → ℝ) :
    mcPayoff cfg Zi =
      match cfg.optionType with
      | OptionKind.call =>
          max (gbmAt cfg.S0 cfg.r cfg.sigma cfg.T cfg.steps Zi cfg.steps - cfg.K) 0
      | OptionKind.put =>
          max (cfg.K - gbmAt cfg.S0 cfg.r cfg.sigma cfg.T cfg.steps Zi cfg.steps) 0 := by
  rw [← mcTerminal_eq_gbmAt]
  rfl

lemma mcPayoff_nonneg (cfg : MCConfig) (Zi : ℕ → ℝ) : 0 ≤ mcPayoff cfg Zi := by
  obtain ⟨S0, K, T, r, sigma, n, steps, ot⟩ := cfg
  cases ot <;> exact le_max_right _ _

/-- C6: with at least one path, the estimated price is the sum of the
discounted payoffs max(ST-K,0) (call) or max(K-ST,0) (put), each
multiplied by exp(-r T), divided by the path count; the in-the-money
probability is 100 * itmCount / pathCount, lies in [0, 100], and is 0 only
when every payoff is exactly 0. -/
theorem mc_aggregates (cfg : MCConfig) (Z : ℕ → ℕ → ℝ)
    (h : 1 ≤ cfg.iterations) :
    (runMonteCarloSimulation cfg Z).optionPrice =
      ((List.range cfg.iterations).map (fun i =>
        (match cfg.optionType with
          | OptionKind.call =>
              max (gbmAt cfg.S0 cfg.r cfg.sigma cfg.T cfg.steps (Z i) cfg.steps -
                cfg.K) 0
          | OptionKind.put =>
              max (cfg.K -
                gbmAt cfg.S0 cfg.r cfg.sigma cfg.T cfg.steps (Z i) cfg.steps) 0) *
          Real.exp (-cfg.r * cfg.T))).sum / (cfg.iterations : ℝ) ∧
    (runMonteCarloSimulation cfg Z).inTheMoneyProbability =
      100 * (inTheMoneyCount cfg Z : ℝ) / (cfg.iterations : ℝ) ∧
    0 ≤ (runMonteCarloSimulation cfg Z).inTheMoneyProbability ∧
    (runMonteCarloSimulation cfg Z).inTheMoneyProbability ≤ 100 ∧
    ((runMonteCarloSimulation cfg Z).inTheMoneyProbability = 0 →
      ∀ p ∈ discountedPayoffs cfg Z, p = 0) := by
  have hnpos : (0 : ℝ) < (cfg.iterations : ℝ) := by
    exact_mod_cast Nat.lt_of_lt_of_le Nat.zero_lt_one h
  have hcount : (inTheMoneyCount cfg Z : ℝ) ≤ (cfg.iterations : ℝ) := by
    have hle : inTheMoneyCount cfg Z ≤ cfg.iterations := by
      rw [inTheMoneyCount]
      calc (undiscountedPayoffs cfg Z).countP (fun p => decide (0 < p)) ≤
          (undiscountedPayoffs cfg Z).length := List.countP_le_length _
        _ = cfg.iterations := by simp [undiscountedPayoffs]
    exact_mod_cast hle
  refine ⟨?_, ?_, ?_, ?_, ?_⟩
  · rw [mc_optionPrice_eq, discountedPayoffs, undiscountedPayoffs, List.map_map]
    congr 1
    refine congrArg List.sum (List.map_congr_left ?_)
    intro i _
    simp only [Function.comp_apply]
    rw [mcPayoff_eq_spec]
  · rw [mc_itm_eq]
    ring
  · rw [mc_itm_eq]
    positivity
  · rw [mc_itm_eq]
    nlinarith [(div_le_one hnpos).mpr hcount]
  · intro h0 p hp
    rw [mc_itm_eq] at h0
    have hzero : (inTheMoneyCount cfg Z : ℝ) = 0 := by
      rcases mul_eq_zero.mp h0 with h1 | h1
      · rcases div_eq_zero_iff.mp h1 with h2 | h2
        · exact h2
        · exact absurd h2 (ne_of_gt hnpos)
      · norm_num at h1
    have hnat : inTheMoneyCount cfg Z = 0 := by exact_mod_cast hzero
    rw [inTheMoneyCount, List.countP_eq_zero] at hnat
    rw [discountedPayoffs, List.mem_map] at hp
    obtain ⟨q, hq, rfl⟩ := hp
    have hnotpos : ¬ (0 < q) := by simpa using hnat q hq
    have hqnonneg : 0 ≤ q := by
      rw [undiscountedPayoffs, List.mem_map] at hq
      obtain ⟨i, _, rfl⟩ := hq
      exact mcPayoff_nonneg cfg (Z i)
    have hq0 : q = 0 := le_antisymm (not_lt.mp hnotpos) hqnonneg
    rw [hq0, zero_mul]

/-- Witness for C6 at the one-path configuration. -/
theorem mc_aggregates_witness :
    1 ≤ mcWitnessConfig.iterations ∧
    0 ≤ (runMonteCarloSimulation mcWitnessConfig zeroDraws).inTheMoneyProbability ∧
    (runMonteCarloSimulation mcWitnessConfig zeroDraws).inTheMoneyProbability ≤ 100 :=
  ⟨le_refl 1,
    (mc_aggregates mcWitnessConfig zeroDraws (le_refl 1)).2.2.1,
    (mc_aggregates mcWitnessConfig zeroDraws (le_refl 1)).2.2.2.1⟩

/-- C4 supporting theorem: invoked with pathCount = 0, the engine raises no
error (its result type has no error channel at all) and its `valueAtRisk`
is the NaN-modelled `none`, coming from the out-of-bounds read
`payoffs[index5th]` on the empty sorted payoff array. -/
theorem mc_zero_paths_silent_nan :
    (runMonteCarloSimulation
      { S0 := 100, K := 100, T := 1, r := 0.05, sigma := 0.2, iterations := 0,
        steps := 50, optionType := OptionKind.call } zeroDraws).valueAtRisk = none := by
  rw [mc_var_eq]
  have hempty : sortedPayoffs
      { S0 := 100, K := 100, T := 1, r := 0.05, sigma := 0.2, iterations := 0,
        steps := 50, optionType := OptionKind.call } zeroDraws = [] := by
    rw [sortedPayoffs, discountedPayoffs, undiscountedPayoffs]
    simp
  rw [hempty]
  rfl

/-- `Asset` from `src/app/page.tsx` (the opaque `id` is omitted; it plays
no role in the calculations). -/
structure Asset where
  name : String
  currentValue : ℝ
  targetAllocation : ℝ

/-- The `action` string of a rebalance entry in `src/app/page.tsx`. -/
inductive TradeAction
  | buy
  | sell
  | hold

/-- One entry of the `actions` array computed by `calculations` in
`src/app/page.tsx` (the spread `...asset` is kept as the `asset` field). -/
structure RebalanceItem where
  asset : Asset
  targetValue : ℝ
  delta : ℝ
  action : TradeAction

/-- The result of the `calculations` memo of `src/app/page.tsx` (its
numeric core; the two display pie-chart data sets are not modelled, no
claim mentions them). -/
structure PortfolioCalculations where
  totalValue : ℝ
  totalAllocation : ℝ
  isValid : Prop
  actions : List RebalanceItem

/-- `calculations` from `src/app/page.tsx`: totals, the validity flag
`|totalAllocation - 100| < 0.01`, and per-asset target value, delta and
buy/sell/hold action. -/
def calculations (assets : List Asset) : PortfolioCalculations :=
  let totalValue := (assets.map (fun a => a.currentValue)).sum
  let totalAllocation := (assets.map (fun a => a.targetAllocation)).sum
  let isValid := |totalAllocation - 100| < 0.01
  let actions := assets.map (fun asset =>
    let targetValue := totalValue * asset.targetAllocation / 100
    let delta := targetValue - asset.currentValue
    { asset := asset, targetValue := targetValue, delta := delta,
      action := if delta > 0.01 then TradeAction.buy
        else if delta < -0.01 then TradeAction.sell else TradeAction.hold })
  { totalValue := totalValue, totalAllocation := totalAllocation,
    isValid := isValid, actions := actions }

lemma calculations_actions_eq (assets : List Asset) :
    (calculations assets).actions = assets.map (fun asset =>
      let targetValue := (assets.map (fun a => a.currentValue)).sum *
        asset.targetAllocation / 100
      let delta := targetValue - asset.currentValue
      { asset := asset, targetValue := targetValue, delta := delta,
        action := if delta > 0.01 then TradeAction.buy
          else if delta < -0.01 then TradeAction.sell
          else TradeAction.hold }) := rfl

lemma calculations_isValid_eq (assets : List Asset) :
    (calculations assets).isValid =
      (|(assets.map (fun a => a.targetAllocation)).sum - 100| < 0.01) := rfl

lemma calculations_deltas_eq (assets : List Asset) :
    ((calculations assets).actions).map (fun it => it.delta) =
      assets.map (fun a =>
        (assets.map (fun x => x.currentValue)).sum * a.targetAllocation / 100 -
          a.currentValue) := by
  rw [calculations_actions_eq, List.map_map]
  rfl

lemma delta_sum_eq (assets : List Asset) (tv : ℝ) :
    (assets.map (fun a => tv * a.targetAllocation / 100 - a.currentValue)).sum =
      tv * (assets.map (fun a => a.targetAllocation)).sum / 100 -
        (assets.map (fun a => a.currentValue)).sum := by
  induction assets with
  | nil => simp
  | cons x xs ih =>
      simp only [List.map_cons, List.sum_cons, ih]
      ring

/-- C8 (amended): when the target allocations sum to exactly 100, the
deltas of the computed rebalance actions sum to 0 exactly, in particular
within the 1e-6 tolerance.  (The validity tolerance |sum - 100| < 0.01 of
the code does not bound the delta sum by 1e-6: the delta sum equals
totalValue * (sum - 100) / 100.) -/
theorem rebalancer_zero_sum (assets : List Asset)
    (h : (assets.map (fun a => a.targetAllocation)).sum = 100) :
    |(((calculations assets).actions).map (fun it => it.delta)).sum| ≤ 1e-6 := by
  have hsum : (((calculations assets).actions).map (fun it => it.delta)).sum = 0 := by
    rw [calculations_deltas_eq, delta_sum_eq, h]
    ring
  rw [hsum, abs_zero]
  norm_num

/-- Witness for the amended C8 at the spec's concrete scenario 3: current
values 50000, 30000, 20000 with targets 40, 30, 30. -/
theorem rebalancer_zero_sum_witness :
    (([⟨"Global Equities", 50000, 40⟩, ⟨"Green Bonds", 30000, 30⟩,
        ⟨"Real Estate", 20000, 30⟩] : List Asset).map
      (fun a => a.targetAllocation)).sum = 100 ∧
    |(((calculations [⟨"Global Equities", 50000, 40⟩, ⟨"Green Bonds", 30000, 30⟩,
        ⟨"Real Estate", 20000, 30⟩]).actions).map (fun it => it.delta)).sum| ≤ 1e-6 := by
  have h : (([⟨"Global Equities", 50000, 40⟩, ⟨"Green Bonds", 30000, 30⟩,
      ⟨"Real Estate", 20000, 30⟩] : List Asset).map
        (fun a => a.targetAllocation)).sum = 100 := by
    simp
    norm_num
  exact ⟨h, rebalancer_zero_sum _ h⟩

/-- Counterexample to C8 as stated: a single asset with current value
100000 and target allocation 100.005 percent passes the validity check
(|100.005 - 100| = 0.005 < 0.01), yet its delta sum is 5, far above the
1e-6 tolerance. -/
theorem rebalancer_zero_sum_cex :
    (calculations [⟨"A", 100000, 100.005⟩]).isValid ∧
    ¬ |(((calculations [⟨"A", 100000, 100.005⟩]).actions).map
        (fun it => it.delta)).sum| ≤ 1e-6 := by
  constructor
  · rw [calculations_isValid_eq]
    simp only [List.map_cons, List.map_nil, List.sum_cons, List.sum_nil]
    rw [abs_of_pos (by norm_num)]
    norm_num
  · rw [calculations_deltas_eq]
    simp only [List.map_cons, List.map_nil, List.sum_cons, List.sum_nil]
    intro hcontra
    rw [abs_of_pos (by norm_num)] at hcontra
    norm_num at hcontra

/-- Refinement target for the spec's rebalancer (section 4.6):
`totalValue` is the sum of the current values. -/
def totalValueSpec (assets : List Asset) : ℝ :=
  (assets.map (fun a => a.currentValue)).sum

/-- Refinement target for the spec's rebalancer (section 4.6):
`targetValue = totalValue * targetAllocationPercent / 100`. -/
def targetValueSpec (totalValue : ℝ) (a : Asset) : ℝ :=
  totalValue * a.targetAllocation / 100

/-- Refinement target for the spec's rebalancer (section 4.6):
`delta = targetValue - currentValue`. -/
def deltaSpec (totalValue : ℝ) (a : Asset) : ℝ :=
  targetValueSpec totalValue a - a.currentValue

/-- Refinement target for the spec's rebalancer (section 4.6):
Buy if delta > 0.01, Sell if delta < -0.01, else Hold. -/
def actionSpec (totalValue : ℝ) (a : Asset) : TradeAction :=
  if deltaSpec totalValue a > 0.01 then TradeAction.buy
  else if deltaSpec totalValue a < -0.01 then TradeAction.sell
  else TradeAction.hold

/-- C9: for every asset collection, also when the targets do not sum to
100, the rebalancer raises no error (the embedded `calculations` is a
total function into plain data): it reports validity as the data flag
`|totalAllocation - 100| < 0.01` and still computes, for every asset, the
spec's target value, delta and buy/sell/hold action. -/
theorem rebalancer_total_no_error (assets : List Asset) :
    ((calculations assets).actions).length = assets.length ∧
    ((calculations assets).isValid ↔
      |(assets.map (fun a => a.targetAllocation)).sum - 100| < 0.01) ∧
    (calculations assets).actions = assets.map (fun a =>
      { asset := a
        targetValue := targetValueSpec (totalValueSpec assets) a
        delta := deltaSpec (totalValueSpec assets) a
        action := actionSpec (totalValueSpec assets) a }) := by
  refine ⟨?_, Iff.rfl, ?_⟩
  · rw [calculations_actions_eq, List.length_map]
  · rfl

end Equilibrium
